import Mathlib

set_option maxHeartbeats 1600000

/-!
A shallow embedding of the bingo-card generator (`generate.py`).

Modelling conventions:
* The injected pseudo-random source (`np.random.RandomState`) is modelled
  abstractly as a stream of natural numbers together with a cursor (`RNG`).
  Each primitive draw consumes one stream value; a draw that must land in
  `[0, n)` reduces the stream value modulo `n`, and a draw of one element of a
  list picks the index `value % length`.  `choice(xs, k, replace=False)`
  is modelled by `sample`: repeatedly pick an index into the remaining pool
  and remove the chosen element.  Every distinct outcome of the real uniform
  draws is realised by some stream, and every stream realises a legal outcome,
  so properties proved for all streams cover all runs of the program.
* A card (`np.zeros((3, 9))` manipulated column by column) is stored
  column-major: a list of 9 columns, each a list of 3 cells; `cell card r c`
  reads grid cell (row `r`, column `c`), 0 meaning blank.
* The MD5 fingerprint of `card.tobytes()` (`_card_to_hash`) is modelled as an
  injective digest of the grid contents, namely the flattened cell list.
* `raise RuntimeError(...)` is modelled with `Except`; the two failure sites
  of the source are the two constructors of `GenError`.
* Python's mutable generator object is modelled by explicit state passing:
  the generator state is the pair of the RNG and the `generated_cards`
  seen-set (a list of fingerprints, most recent first).
-/

/-- Abstract pseudo-random source: a stream of raw draws plus a cursor. -/
structure RNG where
  stream : Nat → Nat
  idx : Nat

/-- The raw value of the next draw. -/
def RNG.val (g : RNG) : Nat := g.stream g.idx

/-- Advance past one draw. -/
def RNG.bump (g : RNG) : RNG := ⟨g.stream, g.idx + 1⟩

/-- A card, stored column-major: 9 columns of 3 cells each; 0 = blank. -/
abbrev Card := List (List Nat)

/-- Grid cell at row `r`, column `c` (out-of-range reads give 0). -/
def cell (card : Card) (r c : Nat) : Nat := (card.getD c []).getD r 0

/-- Lower bound of column `c`'s numeric range (`self.column_ranges`). -/
def colLo (c : Nat) : Nat := c * 10 + 1

/-- Upper bound of column `c`'s numeric range (`self.column_ranges`). -/
def colHi (c : Nat) : Nat := min (c * 10 + 10) 90

/-- The nonzero entries of one column, top to bottom. -/
def colNz (colL : List Nat) : List Nat := colL.filter (fun x => x != 0)

/-- All nonzero values of a card, column by column. -/
def nzValues (card : Card) : List Nat := (card.map colNz).flatten

/-- Model of `rng.choice(xs, k, replace=False)`: draw `k` distinct elements by
repeatedly indexing into the shrinking pool with the next stream value. -/
def sample : RNG → List Nat → Nat → List Nat × RNG
  | g, _, 0 => ([], g)
  | g, xs, k + 1 =>
    if xs.isEmpty then ([], g)
    else
      let i := g.val % xs.length
      let rest := sample g.bump (xs.eraseIdx i) k
      (xs.getD i 0 :: rest.1, rest.2)

/-- Model of `rng.choice(xs)`: one uniform draw of an element of `xs`. -/
def pickOne (g : RNG) (xs : List Nat) : Nat × RNG :=
  (xs.getD (g.val % xs.length) 0, g.bump)

/-- `counts[c] += 1` on a count list. -/
def incrAt (counts : List Nat) (c : Nat) : List Nat :=
  counts.set c (counts.getD c 0 + 1)

/-- One iteration of the distribution loop of `_generate_column_distribution`:
pick `col = rng.randint(0, 9)`; if `counts[col] < 3` increment it, otherwise
re-pick uniformly among the columns that still have space (if any). -/
def distStep (g : RNG) (counts : List Nat) : List Nat × RNG :=
  let col := g.val % 9
  let g' := g.bump
  if counts.getD col 0 < 3 then (incrAt counts col, g')
  else
    let avail := (List.range 9).filter (fun i => decide (counts.getD i 0 < 3))
    if avail.isEmpty then (counts, g')
    else
      let p := pickOne g' avail
      (incrAt counts p.1, p.2)

/-- The `for _ in range(remaining)` loop of `_generate_column_distribution`. -/
def distLoop : RNG → List Nat → Nat → List Nat × RNG
  | g, counts, 0 => (counts, g)
  | g, counts, n + 1 =>
    let s := distStep g counts
    distLoop s.2 s.1 n

/-- `_generate_column_distribution`: start from `[1] * 9` and distribute the
remaining `15 - 9 = 6` increments. -/
def generate_column_distribution (g : RNG) : List Nat × RNG :=
  distLoop g (List.replicate 9 1) 6

/-- The placement loop `for i, row in enumerate(selected_rows):
card[row, col] = selected_numbers[i]`, acting on one column. -/
def placeVals : List Nat → List Nat → List Nat → List Nat
  | colL, [], _ => colL
  | colL, _ :: _, [] => colL
  | colL, r :: rs, v :: vs => placeVals (colL.set r v) rs vs

/-- Step 2 of `_generate_single_card` for one column `c` with target count `k`:
draw `k` distinct values from the column's range, sort them, draw `k` distinct
rows from `{0, 1, 2}`, sort them, and place the values at those rows. -/
def fillColumn (g : RNG) (c k : Nat) : List Nat × RNG :=
  if k = 0 then (List.replicate 3 0, g)
  else
    let avail := List.range' (colLo c) (colHi c + 1 - colLo c)
    let sv := sample g avail k
    let vals := List.insertionSort (fun a b => a ≤ b) sv.1
    let sr := sample sv.2 [0, 1, 2] k
    let rows := List.insertionSort (fun a b => a ≤ b) sr.1
    (placeVals (List.replicate 3 0) rows vals, sr.2)

/-- The `for col in range(9)` fill loop, over (column index, target count)
pairs, producing the card column by column. -/
def fillAll : RNG → List (Nat × Nat) → Card × RNG
  | g, [] => ([], g)
  | g, (c, k) :: rest =>
    let r1 := fillColumn g c k
    let r2 := fillAll r1.2 rest
    (r1.1 :: r2.1, r2.2)

/-- One candidate of `_generate_single_card` before the repair pass:
column distribution, then column fill. -/
def genCandidate (g : RNG) : Card × RNG :=
  let d := generate_column_distribution g
  fillAll d.2 ((List.range 9).zip d.1)

/-- `np.sum(card != 0, axis=1)` for one row: the number of columns whose
entry in row `r` is nonzero. -/
def rowCount (card : Card) (r : Nat) : Nat :=
  card.countP (fun colL => colL.getD r 0 != 0)

/-- `np.all(row_counts == 5)` for the 3 rows. -/
def rowsOK (card : Card) : Bool :=
  rowCount card 0 == 5 && rowCount card 1 == 5 && rowCount card 2 == 5

/-- The `for col in range(9)` scan of `_adjust_card_to_five_per_row`: the first
column where the excess row `e` holds a value and the deficit row `d` is
blank. -/
def findMoveCol (card : Card) (e d : Nat) : Option Nat :=
  (List.range 9).find? (fun c => cell card e c != 0 && cell card d c == 0)

/-- The move itself on one column:
`card[deficit_row, col] = card[excess_row, col]; card[excess_row, col] = 0`. -/
def moveInCol (colL : List Nat) (e d : Nat) : List Nat :=
  (colL.set d (colL.getD e 0)).set e 0

/-- Apply the move at column `c`, excess row `e`, deficit row `d`. -/
def applyMove (card : Card) (c e d : Nat) : Card :=
  card.set c (moveInCol (card.getD c []) e d)

/-- The bounded repair loop of `_adjust_card_to_five_per_row` (fuel = the
remaining iterations of `for attempt in range(100)`).  Each iteration:
succeed if every row holds 5, stop if there is no excess or no deficit row,
otherwise pick an excess row and a deficit row uniformly and move one value
in the first feasible column (a pass with no feasible column is wasted). -/
def adjustLoop : RNG → Card → Nat → Card × RNG
  | g, card, 0 => (card, g)
  | g, card, n + 1 =>
    if rowsOK card then (card, g)
    else
      let ex := [0, 1, 2].filter (fun r => decide (5 < rowCount card r))
      let df := [0, 1, 2].filter (fun r => decide (rowCount card r < 5))
      if ex.isEmpty || df.isEmpty then (card, g)
      else
        let pe := pickOne g ex
        let pd := pickOne pe.2 df
        match findMoveCol card pe.1 pd.1 with
        | some c => adjustLoop pd.2 (applyMove card c pe.1 pd.1) n
        | none => adjustLoop pd.2 card n

/-- `_adjust_card_to_five_per_row`: run up to 100 repair passes, then report
whether every row holds exactly 5 numbers (the final validation). -/
def adjust_card_to_five_per_row (g : RNG) (card : Card) : Bool × Card × RNG :=
  let r := adjustLoop g card 100
  (rowsOK r.1, r.1, r.2)

/-- The two `RuntimeError` sites of the source. -/
inductive GenError where
  | generationExhausted
  | uniquenessExhausted
deriving DecidableEq

/-- The `for attempt in range(max_attempts)` loop of `_generate_single_card`:
build a candidate, repair it, return it on success, retry otherwise. -/
def genSingleLoop : RNG → Nat → Except GenError Card × RNG
  | g, 0 => (Except.error GenError.generationExhausted, g)
  | g, n + 1 =>
    let cand := genCandidate g
    let a := adjust_card_to_five_per_row cand.2 cand.1
    if a.1 then (Except.ok a.2.1, a.2.2) else genSingleLoop a.2.2 n

/-- `_generate_single_card` with its bound `max_attempts = 1000`. -/
def generate_single_card (g : RNG) : Except GenError Card × RNG :=
  genSingleLoop g 1000

/-- `_card_to_hash`: the MD5 digest of `card.tobytes()`, modelled as an
injective digest of the grid contents (the flattened cell list). -/
def card_to_hash (card : Card) : List Nat := card.flatten

/-- The `for attempt in range(max_attempts)` loop of `generate_unique_card`:
build a structurally valid card, accept it (recording its fingerprint) when
the fingerprint is unseen, retry otherwise; a builder failure propagates. -/
def uniqueLoop : RNG → List (List Nat) → Nat → Except GenError Card × RNG × List (List Nat)
  | g, seen, 0 => (Except.error GenError.uniquenessExhausted, g, seen)
  | g, seen, n + 1 =>
    match generate_single_card g with
    | (Except.ok card, g') =>
      if card_to_hash card ∈ seen then uniqueLoop g' seen n
      else (Except.ok card, g', card_to_hash card :: seen)
    | (Except.error e, g') => (Except.error e, g', seen)

/-- `generate_unique_card` with its bound `max_attempts = 10000`; the state
threaded through is (RNG, `self.generated_cards`). -/
def generate_unique_card (g : RNG) (seen : List (List Nat)) :
    Except GenError Card × RNG × List (List Nat) :=
  uniqueLoop g seen 10000

/-- `generate_batch`: `num_cards` successive calls to `generate_unique_card`,
collecting the results; an error propagates (the partial list is lost). -/
def generate_batch : RNG → List (List Nat) → Nat → Except GenError (List Card) × RNG × List (List Nat)
  | g, seen, 0 => (Except.ok [], g, seen)
  | g, seen, n + 1 =>
    match generate_unique_card g seen with
    | (Except.ok card, g', seen') =>
      match generate_batch g' seen' n with
      | (Except.ok cards, g'', seen'') => (Except.ok (card :: cards), g'', seen'')
      | (Except.error e, g'', seen'') => (Except.error e, g'', seen'')
    | (Except.error e, g', seen') => (Except.error e, g', seen')

/-- A session of `n` calls to `generate_unique_card` on one generator
instance: the cards of the successful calls, in order, plus the final state
(a failed call leaves its state to the next call, as the Python object
does across an exception). -/
def runCalls : RNG → List (List Nat) → Nat → List Card × RNG × List (List Nat)
  | g, seen, 0 => ([], g, seen)
  | g, seen, n + 1 =>
    match generate_unique_card g seen with
    | (Except.ok card, g', seen') =>
      let r := runCalls g' seen' n
      (card :: r.1, r.2)
    | (Except.error _, g', seen') => runCalls g' seen' n

/-- `n` consecutive candidates from `_generate_single_card` all carry an
already-seen fingerprint (the exhaustion scenario of `generate_unique_card`). -/
def allDupRun : RNG → List (List Nat) → Nat → Bool
  | _, _, 0 => true
  | g, seen, n + 1 =>
    match generate_single_card g with
    | (Except.ok card, g') =>
      if card_to_hash card ∈ seen then allDupRun g' seen n else false
    | (Except.error _, _) => false

/-- Model of `np.random.RandomState(seed)`: an unspecified family of streams
indexed by the seed. -/
def mkRNG (rs : Nat → Nat → Nat) (seed : Nat) : RNG := ⟨rs seed, 0⟩

/-- The card sequence a freshly seeded generator instance produces over `n`
calls to `generate_unique_card`. -/
def sessionCards (rs : Nat → Nat → Nat) (seed n : Nat) : List Card :=
  (runCalls (mkRNG rs seed) [] n).1

/-- Python's `IndexError`. -/
inductive PyErr where
  | indexError
deriving DecidableEq

/-- Python list indexing `xs[i]` for an `int` index: nonnegative indices read
from the front, negative indices read from the back, out-of-range raises. -/
def pyListGet (xs : List Card) (i : Int) : Except PyErr Card :=
  if 0 ≤ i then
    if i < (xs.length : Int) then Except.ok (xs.getD i.toNat [])
    else Except.error PyErr.indexError
  else
    if 0 ≤ (xs.length : Int) + i then Except.ok (xs.getD ((xs.length : Int) + i).toNat [])
    else Except.error PyErr.indexError

/-- `BingoCardManager.get_card`: guard `index >= len(self.cards_cache)` with
an `IndexError`, otherwise plain Python list indexing on the cache. -/
def get_card (cache : List Card) (i : Int) : Except PyErr Card :=
  if (cache.length : Int) ≤ i then Except.error PyErr.indexError
  else pyListGet cache i

/-- The scan of `validate_cards_unique`: recompute each card's fingerprint and
fail on the first one already met. -/
def validateLoop : List Card → List (List Nat) → Bool
  | [], _ => true
  | card :: rest, hashes =>
    if card_to_hash card ∈ hashes then false
    else validateLoop rest (card_to_hash card :: hashes)

/-- `BingoCardManager.validate_cards_unique`, as a function of the card
collection it scans (`self.cards_cache`); it takes no other state — in
particular not the generator's seen-set. -/
def validate_cards_unique (cache : List Card) : Bool :=
  if cache.isEmpty then true else validateLoop cache []

/-- Shape of a well-formed grid: 9 columns of height 3 (the 3×9 card). -/
def cardShape (card : Card) : Prop :=
  card.length = 9 ∧ ∀ colL ∈ card, colL.length = 3

/-- Every nonzero value of column `c` lies in `[c*10+1, min(c*10+10, 90)]`. -/
def colRangeOK (card : Card) : Prop :=
  ∀ c < 9, ∀ v ∈ colNz (card.getD c []), colLo c ≤ v ∧ v ≤ colHi c

/-- No column repeats a nonzero value. -/
def colsNodup (card : Card) : Prop :=
  ∀ c < 9, (colNz (card.getD c [])).Nodup

/-- The Data Model invariants of a finished card: 3×9 shape, exactly 5
nonzero cells per row, 15 nonzero cells in total, column ranges respected,
and no value repeated anywhere. -/
def validCard (card : Card) : Prop :=
  cardShape card ∧ (∀ r < 3, rowCount card r = 5) ∧ (nzValues card).length = 15 ∧
    colRangeOK card ∧ (nzValues card).Nodup

/-! ### Basic list helpers -/

theorem getD_set_self {α : Type} (l : List α) (i : Nat) (a d : α) (h : i < l.length) :
    (l.set i a).getD i d = a := by
  rw [List.getD_eq_getElem?_getD, List.getElem?_set_self h, Option.getD_some]

theorem getD_set_ne {α : Type} (l : List α) (i j : Nat) (a d : α) (h : i ≠ j) :
    (l.set i a).getD j d = l.getD j d := by
  rw [List.getD_eq_getElem?_getD, List.getElem?_set_ne h, ← List.getD_eq_getElem?_getD]

theorem getD_mem {α : Type} (l : List α) (i : Nat) (d : α) (h : i < l.length) :
    l.getD i d ∈ l := by
  rw [List.getD_eq_getElem l d h]
  exact List.getElem_mem h

theorem getD_cons_eraseIdx_perm :
    ∀ (l : List Nat) (i : Nat), i < l.length → List.Perm (l.getD i 0 :: l.eraseIdx i) l
  | [], i, h => absurd h (by simp)
  | _ :: _, 0, _ => by simp
  | x :: xs, i + 1, h => by
    have ih := getD_cons_eraseIdx_perm xs i (by simpa using h)
    have h1 := List.Perm.swap x (xs.getD i 0) (xs.eraseIdx i)
    simpa using h1.trans (ih.cons x)

/-! ### Sampling lemmas -/

theorem sample_succ (g : RNG) (xs : List Nat) (k : Nat) (h : xs.isEmpty = false) :
    sample g xs (k + 1) =
      (xs.getD (g.val % xs.length) 0 :: (sample g.bump (xs.eraseIdx (g.val % xs.length)) k).1,
        (sample g.bump (xs.eraseIdx (g.val % xs.length)) k).2) := by
  simp [sample, h]

/-- `sample` draws pairwise distinct elements of the pool (the model of
`replace=False`). -/
theorem sample_nodup_subset :
    ∀ (k : Nat) (g : RNG) (xs : List Nat), xs.Nodup →
      (sample g xs k).1.Nodup ∧ ∀ x ∈ (sample g xs k).1, x ∈ xs
  | 0, _, _, _ => by simp [sample]
  | k + 1, g, xs, hnd => by
    cases hempty : xs.isEmpty with
    | true => simp [sample, hempty]
    | false =>
      have hlen : 0 < xs.length := by
        cases xs with
        | nil => simp at hempty
        | cons a l => simp
      have hilt : g.val % xs.length < xs.length := Nat.mod_lt _ hlen
      have hperm := getD_cons_eraseIdx_perm xs (g.val % xs.length) hilt
      have hcons : (xs.getD (g.val % xs.length) 0 :: xs.eraseIdx (g.val % xs.length)).Nodup :=
        hperm.nodup_iff.mpr hnd
      have hnotmem := (List.nodup_cons.mp hcons).1
      have htail := (List.nodup_cons.mp hcons).2
      have ih := sample_nodup_subset k g.bump (xs.eraseIdx (g.val % xs.length)) htail
      rw [sample_succ g xs k hempty]
      constructor
      · exact List.nodup_cons.mpr ⟨fun hm => hnotmem (ih.2 _ hm), ih.1⟩
      · intro x hx
        rcases List.mem_cons.mp hx with rfl | hx
        · exact getD_mem xs _ 0 hilt
        · exact List.eraseIdx_subset xs _ (ih.2 x hx)

theorem pickOne_mem (g : RNG) (xs : List Nat) (h : xs ≠ []) : (pickOne g xs).1 ∈ xs := by
  have hlen : 0 < xs.length := List.length_pos.mpr h
  exact getD_mem xs _ 0 (Nat.mod_lt _ hlen)

/-! ### Column distribution: 9 counts in [1,3] summing to 15 -/

theorem sum_set_incr : ∀ (l : List Nat) (c : Nat), c < l.length →
    (l.set c (l.getD c 0 + 1)).sum = l.sum + 1
  | [], _, h => absurd h (by simp)
  | x :: xs, 0, _ => by simp [List.getD_cons_zero]; omega
  | x :: xs, c + 1, h => by
    have ih := sum_set_incr xs c (by simpa using h)
    simp only [List.set_cons_succ, List.sum_cons, List.getD_cons_succ, ih]
    omega

theorem incrAt_length (counts : List Nat) (c : Nat) :
    (incrAt counts c).length = counts.length := by
  simp [incrAt]

theorem incrAt_bounds (counts : List Nat) (c : Nat) (hin : ∀ x ∈ counts, 1 ≤ x ∧ x ≤ 3)
    (hc : counts.getD c 0 < 3) : ∀ x ∈ incrAt counts c, 1 ≤ x ∧ x ≤ 3 := by
  intro x hx
  rcases List.mem_or_eq_of_mem_set hx with hx | rfl
  · exact hin x hx
  · omega

theorem distStep_spec (g : RNG) (counts : List Nat) (h9 : counts.length = 9)
    (hin : ∀ x ∈ counts, 1 ≤ x ∧ x ≤ 3) (hsum : counts.sum < 27) :
    (distStep g counts).1.length = 9 ∧ (∀ x ∈ (distStep g counts).1, 1 ≤ x ∧ x ≤ 3) ∧
      (distStep g counts).1.sum = counts.sum + 1 := by
  have havail : ((List.range 9).filter (fun i => decide (counts.getD i 0 < 3))).isEmpty = false := by
    rw [Bool.eq_false_iff]
    intro hemp
    rw [List.isEmpty_iff] at hemp
    have hall : ∀ i, i < 9 → ¬ counts.getD i 0 < 3 := by
      intro i hi hlt
      have hm : i ∈ (List.range 9).filter (fun i => decide (counts.getD i 0 < 3)) :=
        List.mem_filter.mpr ⟨List.mem_range.mpr hi, by simpa using hlt⟩
      rw [hemp] at hm
      simp at hm
    have hall3 : ∀ x ∈ counts, x = 3 := by
      intro x hx
      rcases List.mem_iff_getElem.mp hx with ⟨i, hi, hEq⟩
      have hi9 : i < 9 := by omega
      have hge := hall i hi9
      rw [List.getD_eq_getElem counts 0 hi] at hge
      have hub := (hin x hx).2
      omega
    have : counts.sum = 27 := by
      rw [List.sum_eq_card_nsmul counts 3 hall3, h9]
      simp
    omega
  by_cases hlt : counts.getD (g.val % 9) 0 < 3
  · have hc9 : g.val % 9 < counts.length := by
      rw [h9]; exact Nat.mod_lt _ (by omega)
    simp only [distStep, if_pos hlt]
    exact ⟨by rw [incrAt_length, h9], incrAt_bounds counts _ hin hlt,
      sum_set_incr counts _ hc9⟩
  · have hne : (List.range 9).filter (fun i => decide (counts.getD i 0 < 3)) ≠ [] := by
      intro hnil
      rw [hnil] at havail
      simp at havail
    simp only [distStep, if_neg hlt, havail, Bool.false_eq_true, if_false]
    have hmem := pickOne_mem g.bump _ hne
    have hflt := List.mem_filter.mp hmem
    have hc3 : counts.getD (pickOne g.bump
        ((List.range 9).filter (fun i => decide (counts.getD i 0 < 3)))).1 0 < 3 := by
      have := hflt.2
      simpa using this
    have hc9 : (pickOne g.bump
        ((List.range 9).filter (fun i => decide (counts.getD i 0 < 3)))).1 < counts.length := by
      rw [h9]
      exact List.mem_range.mp (List.mem_of_mem_filter hmem)
    exact ⟨by rw [incrAt_length, h9], incrAt_bounds counts _ hin hc3,
      sum_set_incr counts _ hc9⟩

theorem distLoop_spec : ∀ (n : Nat) (g : RNG) (counts : List Nat),
    counts.length = 9 → (∀ x ∈ counts, 1 ≤ x ∧ x ≤ 3) → counts.sum + n ≤ 15 →
    (distLoop g counts n).1.length = 9 ∧ (∀ x ∈ (distLoop g counts n).1, 1 ≤ x ∧ x ≤ 3) ∧
      (distLoop g counts n).1.sum = counts.sum + n
  | 0, g, counts, h9, hin, _ => ⟨h9, hin, rfl⟩
  | n + 1, g, counts, h9, hin, hle => by
    have hs := distStep_spec g counts h9 hin (by omega)
    have ih := distLoop_spec n (distStep g counts).2 (distStep g counts).1 hs.1 hs.2.1
      (by omega)
    have e : distLoop g counts (n + 1) =
        distLoop (distStep g counts).2 (distStep g counts).1 n := rfl
    rw [e]
    exact ⟨ih.1, ih.2.1, by rw [ih.2.2, hs.2.2]; omega⟩

/-- The column-distribution step always yields 9 counts in `[1, 3]` summing
to 15, whatever the random draws. -/
theorem distribution_spec (g : RNG) :
    (generate_column_distribution g).1.length = 9 ∧
    (∀ x ∈ (generate_column_distribution g).1, 1 ≤ x ∧ x ≤ 3) ∧
    (generate_column_distribution g).1.sum = 15 := by
  have h := distLoop_spec 6 g (List.replicate 9 1) (by simp)
    (by intro x hx; rcases List.eq_of_mem_replicate hx with rfl; omega)
    (by simp)
  refine ⟨h.1, h.2.1, ?_⟩
  show (distLoop g (List.replicate 9 1) 6).1.sum = 15
  rw [h.2.2]
  simp

/-! ### Column fill: length, range and distinctness per column -/

theorem placeVals_length : ∀ (rows vals colL : List Nat),
    (placeVals colL rows vals).length = colL.length
  | [], _, _ => rfl
  | _ :: _, [], _ => rfl
  | r :: rs, v :: vs, colL => by
    rw [placeVals, placeVals_length rs vs, List.length_set]

theorem placeVals_mem : ∀ (rows vals colL : List Nat) (x : Nat),
    x ∈ placeVals colL rows vals → x ∈ colL ∨ x ∈ vals
  | [], vals, colL, x, h => Or.inl h
  | _ :: _, [], colL, x, h => Or.inl h
  | r :: rs, v :: vs, colL, x, h => by
    rcases placeVals_mem rs vs (colL.set r v) x h with h1 | h1
    · rcases List.mem_or_eq_of_mem_set h1 with h2 | hEq
      · exact Or.inl h2
      · exact Or.inr (by rw [hEq]; exact List.mem_cons_self v vs)
    · exact Or.inr (List.mem_cons_of_mem v h1)

/-- Setting a zero cell to a nonzero value inserts that value into the
column's nonzero list, up to permutation. -/
theorem colNz_set_perm : ∀ (l : List Nat) (r v : Nat), r < l.length →
    l.getD r 0 = 0 → v ≠ 0 → List.Perm (colNz (l.set r v)) (v :: colNz l)
  | [], r, v, hr, _, _ => absurd hr (by simp)
  | x :: xs, 0, v, _, h0, hv => by
    have hx : x = 0 := by simpa using h0
    subst hx
    simp [colNz, hv]
  | x :: xs, r + 1, v, hr, h0, hv => by
    have ih := colNz_set_perm xs r v (by simpa using hr) (by simpa using h0) hv
    have hset : (x :: xs).set (r + 1) v = x :: xs.set r v := rfl
    rw [hset]
    by_cases hx : x = 0
    · subst hx
      have e1 : colNz (0 :: xs.set r v) = colNz (xs.set r v) := by simp [colNz]
      have e2 : colNz (0 :: xs) = colNz xs := by simp [colNz]
      rw [e1, e2]
      exact ih
    · have e1 : colNz (x :: xs.set r v) = x :: colNz (xs.set r v) := by simp [colNz, hx]
      have e2 : colNz (x :: xs) = x :: colNz xs := by simp [colNz, hx]
      rw [e1, e2]
      exact (ih.cons x).trans (List.Perm.swap v x (colNz xs))

/-- The placement loop keeps the column's nonzero entries pairwise distinct,
provided the target rows are distinct, the values are distinct and nonzero,
and the target rows are blank. -/
theorem placeVals_nz_nodup : ∀ (rows vals colL : List Nat),
    rows.Nodup → vals.Nodup →
    (∀ r ∈ rows, r < colL.length) →
    (∀ r ∈ rows, colL.getD r 0 = 0) →
    (∀ v ∈ vals, v ≠ 0) →
    (colNz colL).Nodup →
    (∀ v ∈ vals, v ∉ colNz colL) →
    (colNz (placeVals colL rows vals)).Nodup
  | [], _, _, _, _, _, _, _, hnd, _ => hnd
  | _ :: _, [], _, _, _, _, _, _, hnd, _ => hnd
  | r :: rs, v :: vs, colL, hrnd, hvnd, hlt, h0, hnz, hnd, hdisj => by
    have hr : r < colL.length := hlt r (List.mem_cons_self r rs)
    have hr0 : colL.getD r 0 = 0 := h0 r (List.mem_cons_self r rs)
    have hv : v ≠ 0 := hnz v (List.mem_cons_self v vs)
    have hperm := colNz_set_perm colL r v hr hr0 hv
    have hvnotin : v ∉ colNz colL := hdisj v (List.mem_cons_self v vs)
    refine placeVals_nz_nodup rs vs (colL.set r v)
      (List.nodup_cons.mp hrnd).2 (List.nodup_cons.mp hvnd).2 ?_ ?_ ?_ ?_ ?_
    · intro r' hr'
      rw [List.length_set]
      exact hlt r' (List.mem_cons_of_mem r hr')
    · intro r' hr'
      have hne : r ≠ r' := fun hEq => (List.nodup_cons.mp hrnd).1 (hEq ▸ hr')
      rw [getD_set_ne colL r r' v 0 hne]
      exact h0 r' (List.mem_cons_of_mem r hr')
    · intro v' hv'
      exact hnz v' (List.mem_cons_of_mem v hv')
    · rw [hperm.nodup_iff]
      exact List.nodup_cons.mpr ⟨hvnotin, hnd⟩
    · intro v' hv' hmem
      have := hperm.mem_iff.mp hmem
      rcases List.mem_cons.mp this with rfl | hin
      · exact (List.nodup_cons.mp hvnd).1 hv'
      · exact hdisj v' (List.mem_cons_of_mem v hv') hin

/-- Postcondition of filling one column with target count `k`: height 3,
distinct nonzero entries, all in the column's numeric range. -/
def colPost (c : Nat) (colL : List Nat) : Prop :=
  colL.length = 3 ∧ (colNz colL).Nodup ∧ ∀ v ∈ colNz colL, colLo c ≤ v ∧ v ≤ colHi c

theorem replicate3_getD (i : Nat) : (List.replicate 3 (0 : Nat)).getD i 0 = 0 := by
  match i with
  | 0 => rfl
  | 1 => rfl
  | 2 => rfl
  | n + 3 => rfl

theorem colNz_replicate3 : colNz (List.replicate 3 (0 : Nat)) = [] := rfl

theorem fillColumn_post (g : RNG) (c k : Nat) : colPost c (fillColumn g c k).1 := by
  by_cases hk : k = 0
  · subst hk
    have hfe : fillColumn g c 0 = (List.replicate 3 0, g) := by simp [fillColumn]
    rw [hfe]
    refine ⟨by simp, ?_, ?_⟩
    · rw [colNz_replicate3]
      exact List.nodup_nil
    · rw [colNz_replicate3]
      intro v hv
      simp at hv
  · have havail : (List.range' (colLo c) (colHi c + 1 - colLo c)).Nodup :=
      List.nodup_range' _ _
    have hsv := sample_nodup_subset k g (List.range' (colLo c) (colHi c + 1 - colLo c)) havail
    have hvals :
        (List.insertionSort (fun a b => a ≤ b)
          (sample g (List.range' (colLo c) (colHi c + 1 - colLo c)) k).1).Perm
          (sample g (List.range' (colLo c) (colHi c + 1 - colLo c)) k).1 :=
      List.perm_insertionSort _ _
    have hvnd := hvals.nodup_iff.mpr hsv.1
    have hvmem : ∀ v ∈ List.insertionSort (fun a b => a ≤ b)
        (sample g (List.range' (colLo c) (colHi c + 1 - colLo c)) k).1,
        colLo c ≤ v ∧ v ≤ colHi c := by
      intro v hv
      have hvin := hsv.2 v (hvals.mem_iff.mp hv)
      have := List.mem_range'_1.mp hvin
      refine ⟨this.1, ?_⟩
      omega
    have hvnz : ∀ v ∈ List.insertionSort (fun a b => a ≤ b)
        (sample g (List.range' (colLo c) (colHi c + 1 - colLo c)) k).1, v ≠ 0 := by
      intro v hv
      have := (hvmem v hv).1
      simp only [colLo] at this
      omega
    have hrows := sample_nodup_subset k
      (sample g (List.range' (colLo c) (colHi c + 1 - colLo c)) k).2 [0, 1, 2] (by decide)
    have hrsort :
        (List.insertionSort (fun a b => a ≤ b)
          (sample (sample g (List.range' (colLo c) (colHi c + 1 - colLo c)) k).2 [0, 1, 2] k).1).Perm
          (sample (sample g (List.range' (colLo c) (colHi c + 1 - colLo c)) k).2 [0, 1, 2] k).1 :=
      List.perm_insertionSort _ _
    have hrnd := hrsort.nodup_iff.mpr hrows.1
    have hrlt : ∀ r ∈ List.insertionSort (fun a b => a ≤ b)
        (sample (sample g (List.range' (colLo c) (colHi c + 1 - colLo c)) k).2 [0, 1, 2] k).1,
        r < (List.replicate 3 (0 : Nat)).length := by
      intro r hr
      have hmem := hrows.2 r (hrsort.mem_iff.mp hr)
      simp only [List.length_replicate]
      have : r = 0 ∨ r = 1 ∨ r = 2 := by simpa using hmem
      omega
    have hfe : fillColumn g c k =
        (placeVals (List.replicate 3 0)
          (List.insertionSort (fun a b => a ≤ b)
            (sample (sample g (List.range' (colLo c) (colHi c + 1 - colLo c)) k).2 [0, 1, 2] k).1)
          (List.insertionSort (fun a b => a ≤ b)
            (sample g (List.range' (colLo c) (colHi c + 1 - colLo c)) k).1),
          (sample (sample g (List.range' (colLo c) (colHi c + 1 - colLo c)) k).2 [0, 1, 2] k).2) := by
      simp [fillColumn, hk]
    rw [hfe]
    refine ⟨?_, ?_, ?_⟩
    · rw [placeVals_length, List.length_replicate]
    · refine placeVals_nz_nodup _ _ _ hrnd hvnd hrlt ?_ hvnz ?_ ?_
      · intro r _
        exact replicate3_getD r
      · rw [colNz_replicate3]
        exact List.nodup_nil
      · intro v _ hmem
        rw [colNz_replicate3] at hmem
        simp at hmem
    · intro v hvmem2
      have hvp : v ∈ placeVals (List.replicate 3 0)
          (List.insertionSort (fun a b => a ≤ b)
            (sample (sample g (List.range' (colLo c) (colHi c + 1 - colLo c)) k).2 [0, 1, 2] k).1)
          (List.insertionSort (fun a b => a ≤ b)
            (sample g (List.range' (colLo c) (colHi c + 1 - colLo c)) k).1) :=
        List.mem_of_mem_filter hvmem2
      have hvne : v ≠ 0 := by
        have := List.mem_filter.mp hvmem2
        simpa using this.2
      rcases placeVals_mem _ _ _ v hvp with h | h
      · exact absurd (List.eq_of_mem_replicate h) hvne
      · exact hvmem v h

theorem fillAll_post : ∀ (pairs : List (Nat × Nat)) (g : RNG),
    (fillAll g pairs).1.length = pairs.length ∧
    ∀ i, i < pairs.length → colPost (pairs.getD i (0, 0)).1 ((fillAll g pairs).1.getD i [])
  | [], g => by simp [fillAll]
  | (c, k) :: rest, g => by
    have ih := fillAll_post rest (fillColumn g c k).2
    have hfe : fillAll g ((c, k) :: rest) =
        ((fillColumn g c k).1 :: (fillAll (fillColumn g c k).2 rest).1,
          (fillAll (fillColumn g c k).2 rest).2) := rfl
    rw [hfe]
    refine ⟨by simp [ih.1], ?_⟩
    intro i hi
    match i with
    | 0 => simpa using fillColumn_post g c k
    | i + 1 =>
      have := ih.2 i (by simpa using hi)
      simpa using this

/-- What holds of every candidate before the repair pass: correct shape,
column ranges respected, and no duplicate inside any column. -/
def candidateOK (card : Card) : Prop := cardShape card ∧ colRangeOK card ∧ colsNodup card

theorem genCandidate_post (g : RNG) : candidateOK (genCandidate g).1 := by
  have hd := distribution_spec g
  have hpairs : ((List.range 9).zip (generate_column_distribution g).1).length = 9 := by
    rw [List.length_zip, List.length_range, hd.1]
    simp
  have hfa := fillAll_post ((List.range 9).zip (generate_column_distribution g).1)
    (generate_column_distribution g).2
  have hlen : (genCandidate g).1.length = 9 := by
    have : (genCandidate g).1.length =
        ((List.range 9).zip (generate_column_distribution g).1).length := hfa.1
    rw [this, hpairs]
  have hfst : ∀ i, i < 9 →
      (((List.range 9).zip (generate_column_distribution g).1).getD i (0, 0)).1 = i := by
    intro i hi
    have hilt : i < ((List.range 9).zip (generate_column_distribution g).1).length := by
      rw [hpairs]; exact hi
    rw [List.getD_eq_getElem _ _ hilt]
    simp
  have hcolP : ∀ i, i < 9 → colPost i ((genCandidate g).1.getD i []) := by
    intro i hi
    have hp := hfa.2 i (by rw [hpairs]; exact hi)
    rw [hfst i hi] at hp
    exact hp
  refine ⟨⟨hlen, ?_⟩, ?_, ?_⟩
  · intro colL hmem
    rcases List.mem_iff_getElem.mp hmem with ⟨i, hi, hEq⟩
    have hi9 : i < 9 := by rw [hlen] at hi; exact hi
    have hgd : (genCandidate g).1.getD i [] = colL := by
      rw [List.getD_eq_getElem _ _ hi, hEq]
    rw [← hgd]
    exact (hcolP i hi9).1
  · intro c hc v hv
    exact (hcolP c hc).2.2 v hv
  · intro c hc
    exact (hcolP c hc).2.1

/-! ### The repair pass only permutes each column's nonzero entries -/

theorem moveInCol_perm (colL : List Nat) (e d : Nat) (hlen : colL.length = 3)
    (he : e < 3) (hd : d < 3) (hne : e ≠ d) (hd0 : colL.getD d 0 = 0) :
    List.Perm (moveInCol colL e d) colL := by
  rcases List.length_eq_three.mp hlen with ⟨x, y, z, rfl⟩
  have he3 : e = 0 ∨ e = 1 ∨ e = 2 := by omega
  have hd3 : d = 0 ∨ d = 1 ∨ d = 2 := by omega
  rcases he3 with rfl | rfl | rfl <;> rcases hd3 with rfl | rfl | rfl
  · exact absurd rfl hne
  · have hy : y = 0 := hd0
    subst hy
    exact List.Perm.swap x 0 [z]
  · have hz : z = 0 := hd0
    subst hz
    exact (List.Perm.swap y 0 [x]).trans
      (((List.Perm.swap x 0 []).cons y).trans (List.Perm.swap x y [0]))
  · have hx : x = 0 := hd0
    subst hx
    exact List.Perm.swap 0 y [z]
  · exact absurd rfl hne
  · have hz : z = 0 := hd0
    subst hz
    exact (List.Perm.swap y 0 []).cons x
  · have hx : x = 0 := hd0
    subst hx
    exact ((List.Perm.swap y 0 [z]).trans
      (((List.Perm.swap z 0 []).cons y).trans (List.Perm.swap z y [0]))).symm
  · have hy : y = 0 := hd0
    subst hy
    exact (List.Perm.swap 0 z []).cons x
  · exact absurd rfl hne

theorem applyMove_spec (card : Card) (c e d : Nat) (hshape : cardShape card) (hc : c < 9)
    (he : e < 3) (hd : d < 3) (hne : e ≠ d) (hd0 : cell card d c = 0) :
    cardShape (applyMove card c e d) ∧
    ∀ c', c' < 9 → List.Perm (colNz ((applyMove card c e d).getD c' []))
      (colNz (card.getD c' [])) := by
  have hclen : c < card.length := by rw [hshape.1]; exact hc
  have hcol3 : (card.getD c []).length = 3 := hshape.2 _ (getD_mem card c [] hclen)
  have hperm := moveInCol_perm (card.getD c []) e d hcol3 he hd hne hd0
  constructor
  · constructor
    · rw [applyMove, List.length_set, hshape.1]
    · intro colL hmem
      simp only [applyMove] at hmem
      rcases List.mem_or_eq_of_mem_set hmem with hmem | hEq
      · exact hshape.2 _ hmem
      · rw [hEq, moveInCol, List.length_set, List.length_set, hcol3]
  · intro c' hc'
    by_cases hcc : c' = c
    · subst hcc
      have hgd : (applyMove card c' e d).getD c' [] = moveInCol (card.getD c' []) e d := by
        simp only [applyMove]
        exact getD_set_self card c' _ [] hclen
      rw [hgd]
      exact hperm.filter _
    · have hgd : (applyMove card c e d).getD c' [] = card.getD c' [] := by
        simp only [applyMove]
        exact getD_set_ne card c c' _ [] (fun hEq2 => hcc hEq2.symm)
      rw [hgd]

theorem adjustLoop_cols : ∀ (n : Nat) (g : RNG) (card : Card), cardShape card →
    cardShape (adjustLoop g card n).1 ∧
    ∀ c, c < 9 → List.Perm (colNz ((adjustLoop g card n).1.getD c []))
      (colNz (card.getD c []))
  | 0, _, _, hs => ⟨hs, fun _ _ => List.Perm.refl _⟩
  | n + 1, g, card, hs => by
    by_cases hok : rowsOK card = true
    · have he : adjustLoop g card (n + 1) = (card, g) := by
        simp [adjustLoop, hok]
      rw [he]
      exact ⟨hs, fun _ _ => List.Perm.refl _⟩
    · by_cases hemp : (([0, 1, 2].filter (fun r => decide (5 < rowCount card r))).isEmpty ||
          ([0, 1, 2].filter (fun r => decide (rowCount card r < 5))).isEmpty) = true
      · have he : adjustLoop g card (n + 1) = (card, g) := by
          simp [adjustLoop, hok, hemp]
        rw [he]
        exact ⟨hs, fun _ _ => List.Perm.refl _⟩
      · have h2 : ¬ [0, 1, 2].filter (fun r => decide (5 < rowCount card r)) = [] ∧
            ¬ [0, 1, 2].filter (fun r => decide (rowCount card r < 5)) = [] := by
          simpa [List.isEmpty_iff] using hemp
        have hpe := pickOne_mem g _ h2.1
        have hpd := pickOne_mem
          (pickOne g ([0, 1, 2].filter (fun r => decide (5 < rowCount card r)))).2 _ h2.2
        have hef := List.mem_filter.mp hpe
        have hdf := List.mem_filter.mp hpd
        have he3 : (pickOne g ([0, 1, 2].filter
            (fun r => decide (5 < rowCount card r)))).1 < 3 := by
          have : (pickOne g ([0, 1, 2].filter (fun r => decide (5 < rowCount card r)))).1 = 0 ∨
              (pickOne g ([0, 1, 2].filter (fun r => decide (5 < rowCount card r)))).1 = 1 ∨
              (pickOne g ([0, 1, 2].filter (fun r => decide (5 < rowCount card r)))).1 = 2 := by
            simpa using hef.1
          omega
        have hd3 : (pickOne (pickOne g ([0, 1, 2].filter
            (fun r => decide (5 < rowCount card r)))).2
            ([0, 1, 2].filter (fun r => decide (rowCount card r < 5)))).1 < 3 := by
          have : (pickOne (pickOne g ([0, 1, 2].filter (fun r => decide (5 < rowCount card r)))).2
                ([0, 1, 2].filter (fun r => decide (rowCount card r < 5)))).1 = 0 ∨
              (pickOne (pickOne g ([0, 1, 2].filter (fun r => decide (5 < rowCount card r)))).2
                ([0, 1, 2].filter (fun r => decide (rowCount card r < 5)))).1 = 1 ∨
              (pickOne (pickOne g ([0, 1, 2].filter (fun r => decide (5 < rowCount card r)))).2
                ([0, 1, 2].filter (fun r => decide (rowCount card r < 5)))).1 = 2 := by
            simpa using hdf.1
          omega
        have hegt : 5 < rowCount card (pickOne g ([0, 1, 2].filter
            (fun r => decide (5 < rowCount card r)))).1 := by
          simpa using hef.2
        have hdlt : rowCount card (pickOne (pickOne g ([0, 1, 2].filter
            (fun r => decide (5 < rowCount card r)))).2
            ([0, 1, 2].filter (fun r => decide (rowCount card r < 5)))).1 < 5 := by
          simpa using hdf.2
        have hne : (pickOne g ([0, 1, 2].filter (fun r => decide (5 < rowCount card r)))).1 ≠
            (pickOne (pickOne g ([0, 1, 2].filter (fun r => decide (5 < rowCount card r)))).2
              ([0, 1, 2].filter (fun r => decide (rowCount card r < 5)))).1 := by
          intro hEq
          rw [hEq] at hegt
          omega
        cases hf : findMoveCol card
            (pickOne g ([0, 1, 2].filter (fun r => decide (5 < rowCount card r)))).1
            (pickOne (pickOne g ([0, 1, 2].filter (fun r => decide (5 < rowCount card r)))).2
              ([0, 1, 2].filter (fun r => decide (rowCount card r < 5)))).1 with
        | none =>
          have he : adjustLoop g card (n + 1) =
              adjustLoop (pickOne (pickOne g ([0, 1, 2].filter
                  (fun r => decide (5 < rowCount card r)))).2
                ([0, 1, 2].filter (fun r => decide (rowCount card r < 5)))).2 card n := by
            simp [adjustLoop, hok, hemp, hf]
          rw [he]
          exact adjustLoop_cols n _ card hs
        | some c =>
          have hc9 : c < 9 := by
            have := List.mem_of_find?_eq_some hf
            exact List.mem_range.mp this
          have hprop := List.find?_some hf
          have hd0 : cell card (pickOne (pickOne g ([0, 1, 2].filter
              (fun r => decide (5 < rowCount card r)))).2
              ([0, 1, 2].filter (fun r => decide (rowCount card r < 5)))).1 c = 0 := by
            rw [Bool.and_eq_true] at hprop
            exact beq_iff_eq.mp hprop.2
          have hmv := applyMove_spec card c _ _ hs hc9 he3 hd3 hne hd0
          have he : adjustLoop g card (n + 1) =
              adjustLoop (pickOne (pickOne g ([0, 1, 2].filter
                  (fun r => decide (5 < rowCount card r)))).2
                ([0, 1, 2].filter (fun r => decide (rowCount card r < 5)))).2
                (applyMove card c
                  (pickOne g ([0, 1, 2].filter (fun r => decide (5 < rowCount card r)))).1
                  (pickOne (pickOne g ([0, 1, 2].filter
                      (fun r => decide (5 < rowCount card r)))).2
                    ([0, 1, 2].filter (fun r => decide (rowCount card r < 5)))).1) n := by
            simp [adjustLoop, hok, hemp, hf]
          rw [he]
          have ih := adjustLoop_cols n
            (pickOne (pickOne g ([0, 1, 2].filter (fun r => decide (5 < rowCount card r)))).2
              ([0, 1, 2].filter (fun r => decide (rowCount card r < 5)))).2
            (applyMove card c
              (pickOne g ([0, 1, 2].filter (fun r => decide (5 < rowCount card r)))).1
              (pickOne (pickOne g ([0, 1, 2].filter (fun r => decide (5 < rowCount card r)))).2
                ([0, 1, 2].filter (fun r => decide (rowCount card r < 5)))).1) hmv.1
          exact ⟨ih.1, fun c' hc' => (ih.2 c' hc').trans (hmv.2 c' hc')⟩

theorem flatten_perm_of_forall2 : ∀ {L1 L2 : List (List Nat)},
    List.Forall₂ (fun a b => List.Perm a b) L1 L2 → List.Perm L1.flatten L2.flatten := by
  intro L1 L2 h
  induction h with
  | nil => exact List.Perm.refl _
  | cons h1 _ ih => simpa using h1.append ih

/-- Any number of repair passes leaves the multiset of nonzero values of the
whole card unchanged. -/
theorem adjustLoop_nz_perm (n : Nat) (g : RNG) (card : Card) (hs : cardShape card) :
    List.Perm (nzValues (adjustLoop g card n).1) (nzValues card) := by
  obtain ⟨hs', hcols⟩ := adjustLoop_cols n g card hs
  apply flatten_perm_of_forall2
  rw [List.forall₂_iff_get]
  constructor
  · simp [hs'.1, hs.1]
  · intro i h1 h2
    simp only [List.get_eq_getElem, List.getElem_map]
    have hi9 : i < 9 := by
      rw [List.length_map, hs'.1] at h1
      exact h1
    have hlt1 : i < (adjustLoop g card n).1.length := by rw [hs'.1]; exact hi9
    have hlt2 : i < card.length := by rw [hs.1]; exact hi9
    have hp := hcols i hi9
    rw [List.getD_eq_getElem _ [] hlt1, List.getD_eq_getElem _ [] hlt2] at hp
    exact hp

theorem colRangeOK_of_perm (card card' : Card)
    (hp : ∀ c, c < 9 → List.Perm (colNz (card'.getD c [])) (colNz (card.getD c [])))
    (h : colRangeOK card) : colRangeOK card' := by
  intro c hc v hv
  exact h c hc v ((hp c hc).mem_iff.mp hv)

theorem colsNodup_of_perm (card card' : Card)
    (hp : ∀ c, c < 9 → List.Perm (colNz (card'.getD c [])) (colNz (card.getD c [])))
    (h : colsNodup card) : colsNodup card' := by
  intro c hc
  exact ((hp c hc).nodup_iff).mpr (h c hc)

/-! ### Valid card assembly -/

theorem colNz_length_three (x y z : Nat) :
    (colNz [x, y, z]).length =
      (if x ≠ 0 then 1 else 0) + (if y ≠ 0 then 1 else 0) + (if z ≠ 0 then 1 else 0) := by
  by_cases hx : x = 0 <;> by_cases hy : y = 0 <;> by_cases hz : z = 0 <;>
    simp [colNz, hx, hy, hz]

theorem nzValues_length_rows : ∀ (card : Card), (∀ colL ∈ card, colL.length = 3) →
    (nzValues card).length = rowCount card 0 + rowCount card 1 + rowCount card 2
  | [], _ => rfl
  | colL :: rest, h3 => by
    have ih := nzValues_length_rows rest (fun l hl => h3 l (List.mem_cons_of_mem _ hl))
    have hlen := h3 colL (List.mem_cons_self _ _)
    rcases List.length_eq_three.mp hlen with ⟨x, y, z, rfl⟩
    have he : nzValues ([x, y, z] :: rest) = colNz [x, y, z] ++ nzValues rest := by
      simp [nzValues]
    rw [he, List.length_append, ih]
    have hr : ∀ r, rowCount ([x, y, z] :: rest) r =
        rowCount rest r + (if [x, y, z].getD r 0 ≠ 0 then 1 else 0) := by
      intro r
      simp only [rowCount, List.countP_cons]
      by_cases h : [x, y, z].getD r 0 = 0 <;> simp [h]
    rw [hr 0, hr 1, hr 2, colNz_length_three]
    have e0 : [x, y, z].getD 0 0 = x := rfl
    have e1 : [x, y, z].getD 1 0 = y := rfl
    have e2 : [x, y, z].getD 2 0 = z := rfl
    rw [e0, e1, e2]
    by_cases hx : x = 0 <;> by_cases hy : y = 0 <;> by_cases hz : z = 0 <;>
      simp [hx, hy, hz] <;> omega

theorem rowsOK_counts (card : Card) (h : rowsOK card = true) :
    rowCount card 0 = 5 ∧ rowCount card 1 = 5 ∧ rowCount card 2 = 5 := by
  simp [rowsOK] at h
  omega

theorem col_ranges_disjoint (i j : Nat) (hij : i < j) (hj : j < 9) (v : Nat)
    (hvi : colLo i ≤ v ∧ v ≤ colHi i) (hvj : colLo j ≤ v ∧ v ≤ colHi j) : False := by
  simp only [colLo, colHi] at hvi hvj
  omega

theorem valid_of_parts (card : Card) (hs : cardShape card) (hr : colRangeOK card)
    (hn : colsNodup card) (hok : rowsOK card = true) : validCard card := by
  obtain ⟨hc0, hc1, hc2⟩ := rowsOK_counts card hok
  refine ⟨hs, ?_, ?_, hr, ?_⟩
  · intro r hr3
    have : r = 0 ∨ r = 1 ∨ r = 2 := by omega
    rcases this with rfl | rfl | rfl
    · exact hc0
    · exact hc1
    · exact hc2
  · rw [nzValues_length_rows card hs.2, hc0, hc1, hc2]
  · rw [nzValues, List.nodup_flatten]
    constructor
    · intro l hl
      rcases List.mem_map.mp hl with ⟨colL, hmem, hEq⟩
      rcases List.mem_iff_getElem.mp hmem with ⟨i, hi, hEq2⟩
      have hi9 : i < 9 := by rw [hs.1] at hi; exact hi
      have hnd := hn i hi9
      rw [List.getD_eq_getElem _ [] hi, hEq2] at hnd
      rw [← hEq]
      exact hnd
    · rw [List.pairwise_iff_getElem]
      intro i j hi hj hij
      simp only [List.getElem_map]
      intro v hvi hvj
      have hi9 : i < 9 := by rw [List.length_map, hs.1] at hi; exact hi
      have hj9 : j < 9 := by rw [List.length_map, hs.1] at hj; exact hj
      have hilt : i < card.length := by rw [hs.1]; exact hi9
      have hjlt : j < card.length := by rw [hs.1]; exact hj9
      have h1 := hr i hi9 v (by rw [List.getD_eq_getElem _ [] hilt]; exact hvi)
      have h2 := hr j hj9 v (by rw [List.getD_eq_getElem _ [] hjlt]; exact hvj)
      exact col_ranges_disjoint i j hij hj9 v h1 h2

/-! ### The single-card builder: valid card or GenerationExhausted -/

theorem genSingleLoop_spec : ∀ (n : Nat) (g : RNG),
    (∀ card g', genSingleLoop g n = (Except.ok card, g') → validCard card) ∧
    (∀ e g', genSingleLoop g n = (Except.error e, g') → e = GenError.generationExhausted)
  | 0, g => by
    constructor
    · intro card g' h
      simp [genSingleLoop] at h
    · intro e g' h
      simp [genSingleLoop] at h
      exact h.1.symm
  | n + 1, g => by
    by_cases hok : rowsOK (adjustLoop (genCandidate g).2 (genCandidate g).1 100).1 = true
    · have he : genSingleLoop g (n + 1) =
          (Except.ok (adjustLoop (genCandidate g).2 (genCandidate g).1 100).1,
            (adjustLoop (genCandidate g).2 (genCandidate g).1 100).2) := by
        simp [genSingleLoop, adjust_card_to_five_per_row, hok]
      constructor
      · intro card g' h
        rw [he] at h
        have h1 : (adjustLoop (genCandidate g).2 (genCandidate g).1 100).1 = card := by
          have h2 := congrArg (fun p => p.1) h
          simpa using h2
        rw [← h1]
        obtain ⟨hshape, hrange, hnodup⟩ := genCandidate_post g
        have hsadj := adjustLoop_cols 100 (genCandidate g).2 (genCandidate g).1 hshape
        exact valid_of_parts _ hsadj.1
          (colRangeOK_of_perm _ _ hsadj.2 hrange) (colsNodup_of_perm _ _ hsadj.2 hnodup) hok
      · intro e g' h
        rw [he] at h
        have h2 := congrArg (fun p => p.1) h
        simp at h2
    · have he : genSingleLoop g (n + 1) =
          genSingleLoop (adjustLoop (genCandidate g).2 (genCandidate g).1 100).2 n := by
        simp [genSingleLoop, adjust_card_to_five_per_row, hok]
      rw [he]
      exact genSingleLoop_spec n _

/-- `_generate_single_card` in terms of its public wrapper: every success is a
valid card, every failure is the GenerationExhausted error. -/
theorem generate_single_card_spec_aux (g : RNG) :
    (∀ card g', generate_single_card g = (Except.ok card, g') → validCard card) ∧
    (∀ e g', generate_single_card g = (Except.error e, g') →
      e = GenError.generationExhausted) :=
  genSingleLoop_spec 1000 g

/-- The builder's bound: `max_attempts = 1000`. -/
theorem generate_single_card_def (g : RNG) :
    generate_single_card g = genSingleLoop g 1000 := rfl

attribute [irreducible] generate_single_card

/-! ### Uniqueness: fingerprints, the seen-set, sessions and batches -/

theorem uniqueLoop_zero (g : RNG) (seen : List (List Nat)) :
    uniqueLoop g seen 0 = (Except.error GenError.uniquenessExhausted, g, seen) := rfl

theorem uniqueLoop_succ_ok {g g2 : RNG} {card : Card} (seen : List (List Nat)) (n : Nat)
    (hsc : generate_single_card g = (Except.ok card, g2)) :
    uniqueLoop g seen (n + 1) =
      if card_to_hash card ∈ seen then uniqueLoop g2 seen n
      else (Except.ok card, g2, card_to_hash card :: seen) := by
  rw [uniqueLoop.eq_2, hsc]

theorem uniqueLoop_succ_err {g g2 : RNG} {e : GenError} (seen : List (List Nat)) (n : Nat)
    (hsc : generate_single_card g = (Except.error e, g2)) :
    uniqueLoop g seen (n + 1) = (Except.error e, g2, seen) := by
  rw [uniqueLoop.eq_2, hsc]

theorem uniqueLoop_spec : ∀ (n : Nat) (g : RNG) (seen : List (List Nat)),
    (∀ card g' seen', uniqueLoop g seen n = (Except.ok card, g', seen') →
      card_to_hash card ∉ seen ∧ seen' = card_to_hash card :: seen) ∧
    (∀ e g' seen', uniqueLoop g seen n = (Except.error e, g', seen') → seen' = seen)
  | 0, g, seen => by
    rw [uniqueLoop_zero]
    constructor
    · intro card g' seen' h
      have := congrArg (fun p => p.1) h
      simp at this
    · intro e g' seen' h
      have := congrArg (fun p => p.2.2) h
      simpa using this.symm
  | n + 1, g, seen => by
    generalize hsc : generate_single_card g = p
    obtain ⟨res, g2⟩ := p
    cases res with
    | ok card =>
      by_cases hmem : card_to_hash card ∈ seen
      · rw [uniqueLoop_succ_ok seen n hsc, if_pos hmem]
        exact uniqueLoop_spec n g2 seen
      · rw [uniqueLoop_succ_ok seen n hsc, if_neg hmem]
        constructor
        · intro card' g' seen' h
          have hc : card = card' := by
            have := congrArg (fun p => p.1) h
            simpa using this
          subst hc
          have hs : seen' = card_to_hash card :: seen := by
            have := congrArg (fun p => p.2.2) h
            simpa using this.symm
          exact ⟨hmem, hs⟩
        · intro e g' seen' h
          have := congrArg (fun p => p.1) h
          simp at this
    | error e0 =>
      rw [uniqueLoop_succ_err seen n hsc]
      constructor
      · intro card g' seen' h
        have := congrArg (fun p => p.1) h
        simp at this
      · intro e g' seen' h
        have := congrArg (fun p => p.2.2) h
        simpa using this.symm

theorem generate_unique_card_spec (g : RNG) (seen : List (List Nat)) :
    (∀ card g' seen', generate_unique_card g seen = (Except.ok card, g', seen') →
      card_to_hash card ∉ seen ∧ seen' = card_to_hash card :: seen) ∧
    (∀ e g' seen', generate_unique_card g seen = (Except.error e, g', seen') → seen' = seen) :=
  uniqueLoop_spec 10000 g seen

/-- One call to `generate_unique_card` never removes a fingerprint. -/
theorem generate_unique_card_mono (g : RNG) (seen : List (List Nat)) :
    ∀ x ∈ seen, x ∈ (generate_unique_card g seen).2.2 := by
  intro x hx
  generalize hu : generate_unique_card g seen = p
  obtain ⟨res, g2, seen2⟩ := p
  show x ∈ seen2
  cases res with
  | ok card =>
    have hs := ((generate_unique_card_spec g seen).1 card g2 seen2 hu).2
    rw [hs]
    exact List.mem_cons_of_mem _ hx
  | error e =>
    have hs := (generate_unique_card_spec g seen).2 e g2 seen2 hu
    rw [hs]
    exact hx

theorem allDupRun_zero (g : RNG) (seen : List (List Nat)) : allDupRun g seen 0 = true := rfl

theorem allDupRun_succ_ok {g g2 : RNG} {card : Card} (seen : List (List Nat)) (n : Nat)
    (hsc : generate_single_card g = (Except.ok card, g2)) :
    allDupRun g seen (n + 1) =
      if card_to_hash card ∈ seen then allDupRun g2 seen n else false := by
  rw [allDupRun.eq_2, hsc]

theorem allDupRun_succ_err {g g2 : RNG} {e : GenError} (seen : List (List Nat)) (n : Nat)
    (hsc : generate_single_card g = (Except.error e, g2)) :
    allDupRun g seen (n + 1) = false := by
  rw [allDupRun.eq_2, hsc]

theorem uniqueLoop_error_iff : ∀ (n : Nat) (g : RNG) (seen : List (List Nat)),
    ((uniqueLoop g seen n).1 = Except.error GenError.uniquenessExhausted ↔
      allDupRun g seen n = true)
  | 0, g, seen => by
    rw [uniqueLoop_zero, allDupRun_zero]
    simp
  | n + 1, g, seen => by
    generalize hsc : generate_single_card g = p
    obtain ⟨res, g2⟩ := p
    cases res with
    | ok card =>
      by_cases hmem : card_to_hash card ∈ seen
      · rw [uniqueLoop_succ_ok seen n hsc, if_pos hmem,
          allDupRun_succ_ok seen n hsc, if_pos hmem]
        exact uniqueLoop_error_iff n g2 seen
      · rw [uniqueLoop_succ_ok seen n hsc, if_neg hmem,
          allDupRun_succ_ok seen n hsc, if_neg hmem]
        simp
    | error e0 =>
      have hgen : e0 = GenError.generationExhausted :=
        (generate_single_card_spec_aux g).2 e0 g2 hsc
      subst hgen
      rw [uniqueLoop_succ_err seen n hsc, allDupRun_succ_err seen n hsc]
      simp

theorem generate_unique_card_error_iff (g : RNG) (seen : List (List Nat)) :
    ((generate_unique_card g seen).1 = Except.error GenError.uniquenessExhausted ↔
      allDupRun g seen 10000 = true) :=
  uniqueLoop_error_iff 10000 g seen

attribute [irreducible] generate_unique_card

theorem runCalls_zero (g : RNG) (seen : List (List Nat)) :
    runCalls g seen 0 = ([], g, seen) := rfl

theorem runCalls_succ_ok {g g2 : RNG} {card : Card} {seen seen2 : List (List Nat)} (n : Nat)
    (hu : generate_unique_card g seen = (Except.ok card, g2, seen2)) :
    runCalls g seen (n + 1) =
      (card :: (runCalls g2 seen2 n).1, (runCalls g2 seen2 n).2) := by
  rw [runCalls.eq_2, hu]

theorem runCalls_succ_err {g g2 : RNG} {e : GenError} {seen seen2 : List (List Nat)} (n : Nat)
    (hu : generate_unique_card g seen = (Except.error e, g2, seen2)) :
    runCalls g seen (n + 1) = runCalls g2 seen2 n := by
  rw [runCalls.eq_2, hu]

theorem runCalls_spec : ∀ (n : Nat) (g : RNG) (seen : List (List Nat)),
    ((runCalls g seen n).1.map card_to_hash).Nodup ∧
    (∀ h ∈ (runCalls g seen n).1.map card_to_hash,
      h ∈ (runCalls g seen n).2.2 ∧ h ∉ seen) ∧
    (∀ x ∈ seen, x ∈ (runCalls g seen n).2.2)
  | 0, g, seen => by
    rw [runCalls_zero]
    simp
  | n + 1, g, seen => by
    generalize hu : generate_unique_card g seen = p
    obtain ⟨res, g2, seen2⟩ := p
    cases res with
    | ok card =>
      obtain ⟨hnotin, hseen2⟩ := (generate_unique_card_spec g seen).1 card g2 seen2 hu
      rw [runCalls_succ_ok n hu]
      obtain ⟨ih1, ih2, ih3⟩ := runCalls_spec n g2 seen2
      refine ⟨?_, ?_, ?_⟩
      · show (List.map card_to_hash (card :: (runCalls g2 seen2 n).1)).Nodup
        simp only [List.map_cons]
        refine List.nodup_cons.mpr ⟨?_, ih1⟩
        intro hmem
        have := (ih2 _ hmem).2
        rw [hseen2] at this
        exact this (List.mem_cons_self _ _)
      · intro h hmem
        show h ∈ (runCalls g2 seen2 n).2.2 ∧ h ∉ seen
        have hmem2 : h ∈ List.map card_to_hash (card :: (runCalls g2 seen2 n).1) := hmem
        simp only [List.map_cons] at hmem2
        rcases List.mem_cons.mp hmem2 with rfl | hmem3
        · constructor
          · apply ih3
            rw [hseen2]
            exact List.mem_cons_self _ _
          · exact hnotin
        · refine ⟨(ih2 _ hmem3).1, ?_⟩
          intro hx
          exact (ih2 _ hmem3).2 (by rw [hseen2]; exact List.mem_cons_of_mem _ hx)
      · intro x hx
        show x ∈ (runCalls g2 seen2 n).2.2
        apply ih3
        rw [hseen2]
        exact List.mem_cons_of_mem _ hx
    | error e =>
      have hseen2 : seen2 = seen := (generate_unique_card_spec g seen).2 e g2 seen2 hu
      subst hseen2
      rw [runCalls_succ_err n hu]
      exact runCalls_spec n g2 seen2

theorem generate_batch_zero (g : RNG) (seen : List (List Nat)) :
    generate_batch g seen 0 = (Except.ok [], g, seen) := rfl

theorem generate_batch_succ_ok {g g2 g3 : RNG} {card : Card} {cards : List Card}
    {seen seen2 seen3 : List (List Nat)} (n : Nat)
    (hu : generate_unique_card g seen = (Except.ok card, g2, seen2))
    (hb : generate_batch g2 seen2 n = (Except.ok cards, g3, seen3)) :
    generate_batch g seen (n + 1) = (Except.ok (card :: cards), g3, seen3) := by
  have h1 : generate_batch g seen (n + 1) =
      match generate_batch g2 seen2 n with
      | (Except.ok cards, g3, seen3) => (Except.ok (card :: cards), g3, seen3)
      | (Except.error e, g3, seen3) => (Except.error e, g3, seen3) := by
    rw [generate_batch.eq_2, hu]
  rw [h1, hb]

theorem generate_batch_succ_err1 {g g2 : RNG} {e : GenError} {seen seen2 : List (List Nat)}
    (n : Nat) (hu : generate_unique_card g seen = (Except.error e, g2, seen2)) :
    generate_batch g seen (n + 1) = (Except.error e, g2, seen2) := by
  rw [generate_batch.eq_2, hu]

theorem generate_batch_succ_err2 {g g2 g3 : RNG} {card : Card} {e : GenError}
    {seen seen2 seen3 : List (List Nat)} (n : Nat)
    (hu : generate_unique_card g seen = (Except.ok card, g2, seen2))
    (hb : generate_batch g2 seen2 n = (Except.error e, g3, seen3)) :
    generate_batch g seen (n + 1) = (Except.error e, g3, seen3) := by
  have h1 : generate_batch g seen (n + 1) =
      match generate_batch g2 seen2 n with
      | (Except.ok cards, g3, seen3) => (Except.ok (card :: cards), g3, seen3)
      | (Except.error e, g3, seen3) => (Except.error e, g3, seen3) := by
    rw [generate_batch.eq_2, hu]
  rw [h1, hb]

theorem generate_batch_length : ∀ (n : Nat) (g : RNG) (seen : List (List Nat)),
    ∀ cards g' seen', generate_batch g seen n = (Except.ok cards, g', seen') →
      cards.length = n
  | 0, g, seen => by
    intro cards g' seen' h
    rw [generate_batch_zero] at h
    have hc : ([] : List Card) = cards := by
      have := congrArg (fun p => p.1) h
      simpa using this
    rw [← hc]
    rfl
  | n + 1, g, seen => by
    intro cards g' seen' h
    generalize hu : generate_unique_card g seen = p
    obtain ⟨res, g2, seen2⟩ := p
    cases res with
    | ok card =>
      generalize hb : generate_batch g2 seen2 n = q
      obtain ⟨res2, g3, seen3⟩ := q
      cases res2 with
      | ok cards2 =>
        rw [generate_batch_succ_ok n hu hb] at h
        have hc : card :: cards2 = cards := by
          have := congrArg (fun p => p.1) h
          simpa using this
        have ihl := generate_batch_length n g2 seen2 cards2 g3 seen3 hb
        rw [← hc, List.length_cons, ihl]
      | error e =>
        rw [generate_batch_succ_err2 n hu hb] at h
        have := congrArg (fun p => p.1) h
        simp at this
    | error e =>
      rw [generate_batch_succ_err1 n hu] at h
      have := congrArg (fun p => p.1) h
      simp at this

/-! ### The post-hoc uniqueness check -/

theorem validateLoop_spec : ∀ (cards : List Card) (hashes : List (List Nat)),
    validateLoop cards hashes = true ↔
      ((cards.map card_to_hash).Nodup ∧ ∀ h ∈ cards.map card_to_hash, h ∉ hashes)
  | [], hashes => by simp [validateLoop]
  | card :: rest, hashes => by
    by_cases hmem : card_to_hash card ∈ hashes
    · simp only [validateLoop, if_pos hmem]
      constructor
      · intro h
        simp at h
      · intro hall
        exact absurd hmem (hall.2 _ (by simp))
    · simp only [validateLoop, if_neg hmem]
      rw [validateLoop_spec rest (card_to_hash card :: hashes)]
      constructor
      · rintro ⟨hnd, hall⟩
        refine ⟨?_, ?_⟩
        · simp only [List.map_cons]
          refine List.nodup_cons.mpr ⟨?_, hnd⟩
          intro hmem2
          exact (hall _ hmem2) (List.mem_cons_self _ _)
        · intro h hm
          simp only [List.map_cons] at hm
          rcases List.mem_cons.mp hm with rfl | hm2
          · exact hmem
          · intro hx
            exact (hall _ hm2) (List.mem_cons_of_mem _ hx)
      · rintro ⟨hnd, hall⟩
        simp only [List.map_cons] at hnd
        obtain ⟨hhd, htl⟩ := List.nodup_cons.mp hnd
        refine ⟨htl, ?_⟩
        intro h hm hx
        rcases List.mem_cons.mp hx with hEq | hx2
        · exact hhd (by rw [← hEq]; exact hm)
        · exact (hall h (by simp only [List.map_cons]; exact List.mem_cons_of_mem _ hm)) hx2

theorem validate_spec (cache : List Card) :
    validate_cards_unique cache = true ↔ (cache.map card_to_hash).Nodup := by
  cases cache with
  | nil => simp [validate_cards_unique]
  | cons card rest =>
    have he : validate_cards_unique (card :: rest) = validateLoop (card :: rest) [] := by
      simp [validate_cards_unique]
    rw [he, validateLoop_spec]
    simp


/-! ### Concrete inputs used by the witnesses -/

/-- The all-zero random stream. -/
def zeroRNG : RNG := ⟨fun _ => 0, 0⟩

/-- A concrete 9-column card of height 3. -/
def sampleCard : Card :=
  [[1, 2, 3], [11, 0, 0], [21, 0, 0], [31, 0, 0], [41, 0, 0],
   [51, 0, 0], [61, 0, 0], [71, 0, 0], [81, 0, 0]]

/-- A concrete one-card cache. -/
def sampleCache : List Card := [sampleCard]

/-! ### The claims -/

/-- Claim C1: every call to the single-card builder either returns a 3×9 grid
in which each row has exactly 5 nonzero cells (15 nonzero cells total), every
nonzero value in column `c` lies in `[c*10+1, min (c*10+10) 90]`, and no
nonzero value repeats anywhere on the card, or it fails with the
GenerationExhausted error after exhausting its bound of 1000 candidate
attempts. -/
theorem claim_C1 (g : RNG) :
    (match generate_single_card g with
      | (Except.ok card, _) => validCard card
      | (Except.error e, _) => e = GenError.generationExhausted) ∧
    generate_single_card g = genSingleLoop g 1000 := by
  constructor
  · generalize hsc : generate_single_card g = p
    obtain ⟨res, g2⟩ := p
    cases res with
    | ok card => exact (generate_single_card_spec_aux g).1 card g2 hsc
    | error e => exact (generate_single_card_spec_aux g).2 e g2 hsc
  · exact generate_single_card_def g

/-- Witness for C1 at the all-zero stream. -/
theorem claim_C1_witness :
    (match generate_single_card zeroRNG with
      | (Except.ok card, _) => validCard card
      | (Except.error e, _) => e = GenError.generationExhausted) ∧
    generate_single_card zeroRNG = genSingleLoop zeroRNG 1000 :=
  claim_C1 zeroRNG

/-- Claim C2: across any session of calls to `generate_unique_card` on one
generator state, the returned cards have pairwise distinct fingerprints, each
returned fingerprint is recorded in the seen-set before return, and the
seen-set only grows — both over a whole session and over a single call. -/
theorem claim_C2 (g : RNG) (seen : List (List Nat)) (n : Nat) :
    ((runCalls g seen n).1.map card_to_hash).Nodup ∧
    (∀ card ∈ (runCalls g seen n).1, card_to_hash card ∈ (runCalls g seen n).2.2) ∧
    (∀ x ∈ seen, x ∈ (runCalls g seen n).2.2) ∧
    (∀ x ∈ seen, x ∈ (generate_unique_card g seen).2.2) := by
  obtain ⟨h1, h2, h3⟩ := runCalls_spec n g seen
  refine ⟨h1, ?_, h3, generate_unique_card_mono g seen⟩
  intro card hc
  exact (h2 _ (List.mem_map_of_mem _ hc)).1

/-- Witness for C2: a one-call session from the all-zero stream. -/
theorem claim_C2_witness :
    ((runCalls zeroRNG [] 1).1.map card_to_hash).Nodup ∧
    (∀ card ∈ (runCalls zeroRNG [] 1).1,
      card_to_hash card ∈ (runCalls zeroRNG [] 1).2.2) ∧
    (∀ x ∈ ([] : List (List Nat)), x ∈ (runCalls zeroRNG [] 1).2.2) ∧
    (∀ x ∈ ([] : List (List Nat)), x ∈ (generate_unique_card zeroRNG []).2.2) :=
  claim_C2 zeroRNG [] 1

/-- Claim C3: the column-distribution step always returns 9 integers, each in
`[1, 3]`, summing to exactly 15 (computed by the two-tier random selection the
embedding `distStep` reproduces). -/
theorem claim_C3 (g : RNG) :
    (generate_column_distribution g).1.length = 9 ∧
    (∀ x ∈ (generate_column_distribution g).1, 1 ≤ x ∧ x ≤ 3) ∧
    (generate_column_distribution g).1.sum = 15 :=
  distribution_spec g

/-- Witness for C3 at the all-zero stream. -/
theorem claim_C3_witness :
    (generate_column_distribution zeroRNG).1.length = 9 ∧
    (∀ x ∈ (generate_column_distribution zeroRNG).1, 1 ≤ x ∧ x ≤ 3) ∧
    (generate_column_distribution zeroRNG).1.sum = 15 :=
  claim_C3 zeroRNG

/-- Claim C4: the row-balancing repair pass only relocates single nonzero
values inside a column, so any number of passes leaves each column's multiset
of nonzero values unchanged — hence the column-range invariant, the per-column
counts, the total of 15 nonzero cells, and all-values-distinct are preserved
whether or not the repair succeeds. -/
theorem claim_C4 (g : RNG) (card : Card) (n : Nat) (hs : cardShape card) :
    cardShape (adjustLoop g card n).1 ∧
    (∀ c < 9, List.Perm (colNz ((adjustLoop g card n).1.getD c []))
      (colNz (card.getD c []))) ∧
    List.Perm (nzValues (adjustLoop g card n).1) (nzValues card) ∧
    (colRangeOK card → colRangeOK (adjustLoop g card n).1) ∧
    (colsNodup card → colsNodup (adjustLoop g card n).1) ∧
    ((nzValues card).Nodup → (nzValues (adjustLoop g card n).1).Nodup) ∧
    (nzValues (adjustLoop g card n).1).length = (nzValues card).length := by
  obtain ⟨hs', hcols⟩ := adjustLoop_cols n g card hs
  have hnz := adjustLoop_nz_perm n g card hs
  exact ⟨hs', hcols, hnz, fun h => colRangeOK_of_perm _ _ hcols h,
    fun h => colsNodup_of_perm _ _ hcols h, fun h => hnz.nodup_iff.mpr h,
    hnz.length_eq⟩

/-- Witness for C4 at a concrete card and one repair pass. -/
theorem claim_C4_witness :
    cardShape sampleCard ∧
    (cardShape (adjustLoop zeroRNG sampleCard 1).1 ∧
      (∀ c < 9, List.Perm (colNz ((adjustLoop zeroRNG sampleCard 1).1.getD c []))
        (colNz (sampleCard.getD c []))) ∧
      List.Perm (nzValues (adjustLoop zeroRNG sampleCard 1).1) (nzValues sampleCard) ∧
      (colRangeOK sampleCard → colRangeOK (adjustLoop zeroRNG sampleCard 1).1) ∧
      (colsNodup sampleCard → colsNodup (adjustLoop zeroRNG sampleCard 1).1) ∧
      ((nzValues sampleCard).Nodup → (nzValues (adjustLoop zeroRNG sampleCard 1).1).Nodup) ∧
      (nzValues (adjustLoop zeroRNG sampleCard 1).1).length = (nzValues sampleCard).length) :=
  ⟨by unfold cardShape; decide, claim_C4 zeroRNG sampleCard 1 (by unfold cardShape; decide)⟩

/-- Claim C5: `generate_unique_card` fails with UniquenessExhausted exactly
when all 10000 retries produce an already-seen fingerprint; on any failure the
seen-set is unchanged, and on success the returned card's fingerprint was not
in the seen-set (a duplicate is never returned) and is recorded. -/
theorem claim_C5 (g : RNG) (seen : List (List Nat)) :
    ((generate_unique_card g seen).1 = Except.error GenError.uniquenessExhausted ↔
      allDupRun g seen 10000 = true) ∧
    (match (generate_unique_card g seen).1 with
      | Except.ok card =>
        card_to_hash card ∉ seen ∧
        (generate_unique_card g seen).2.2 = card_to_hash card :: seen
      | Except.error _ => (generate_unique_card g seen).2.2 = seen) := by
  refine ⟨generate_unique_card_error_iff g seen, ?_⟩
  generalize hu : generate_unique_card g seen = p
  obtain ⟨res, g2, seen2⟩ := p
  cases res with
  | ok card => exact (generate_unique_card_spec g seen).1 card g2 seen2 hu
  | error e => exact (generate_unique_card_spec g seen).2 e g2 seen2 hu

/-- Witness for C5 at the all-zero stream and an empty seen-set. -/
theorem claim_C5_witness :
    ((generate_unique_card zeroRNG []).1 = Except.error GenError.uniquenessExhausted ↔
      allDupRun zeroRNG [] 10000 = true) ∧
    (match (generate_unique_card zeroRNG []).1 with
      | Except.ok card =>
        card_to_hash card ∉ ([] : List (List Nat)) ∧
        (generate_unique_card zeroRNG []).2.2 = card_to_hash card :: []
      | Except.error _ => (generate_unique_card zeroRNG []).2.2 = []) :=
  claim_C5 zeroRNG []

/-- Claim C6: the post-hoc uniqueness check recomputes fingerprints of the
card collection it is given — no seen-set state is involved — and returns
true exactly when all fingerprints are pairwise distinct; in particular it
returns true on the empty collection. -/
theorem claim_C6 (cache : List Card) :
    (validate_cards_unique cache = true ↔ (cache.map card_to_hash).Nodup) ∧
    validate_cards_unique [] = true :=
  ⟨validate_spec cache, rfl⟩

/-- Witness for C6 at the one-card cache. -/
theorem claim_C6_witness :
    (validate_cards_unique sampleCache = true ↔
      (sampleCache.map card_to_hash).Nodup) ∧
    validate_cards_unique [] = true :=
  claim_C6 sampleCache

/-- Claim C7: two generator instances built from the same seed (hence the
same injected random stream) and driven by the same call sequence produce
identical card sequences and identical final states — the embedding makes the
generator a pure function of the seed and the call count, so no other state
can influence the result. -/
theorem claim_C7 (rs : Nat → Nat → Nat) (seed1 seed2 n : Nat) (h : seed1 = seed2) :
    sessionCards rs seed1 n = sessionCards rs seed2 n ∧
    runCalls (mkRNG rs seed1) [] n = runCalls (mkRNG rs seed2) [] n := by
  subst h
  exact ⟨rfl, rfl⟩

/-- Witness for C7 at seed 0 and one call. -/
theorem claim_C7_witness :
    sessionCards (fun _ _ => 0) 0 1 = sessionCards (fun _ _ => 0) 0 1 ∧
    runCalls (mkRNG (fun _ _ => 0) 0) [] 1 = runCalls (mkRNG (fun _ _ => 0) 0) [] 1 :=
  claim_C7 (fun _ _ => 0) 0 0 1 rfl

/-- Claim C8: `generate_batch n` performs `n` successive calls to
`generate_unique_card` (that is its defining recursion) and, when it returns
successfully, returns exactly `n` cards; requesting `n = 0` yields the empty
sequence. -/
theorem claim_C8 (g : RNG) (seen : List (List Nat)) (n : Nat) :
    (generate_batch g seen 0).1 = Except.ok [] ∧
    (match (generate_batch g seen n).1 with
      | Except.ok cards => cards.length = n
      | Except.error _ => True) := by
  constructor
  · rw [generate_batch_zero]
  · generalize hb : generate_batch g seen n = p
    obtain ⟨res, g2, seen2⟩ := p
    cases res with
    | ok cards => exact generate_batch_length n g seen cards g2 seen2 hb
    | error e => trivial

/-- Witness for C8 at the all-zero stream and a two-card request. -/
theorem claim_C8_witness :
    (generate_batch zeroRNG [] 0).1 = Except.ok [] ∧
    (match (generate_batch zeroRNG [] 2).1 with
      | Except.ok cards => cards.length = 2
      | Except.error _ => True) :=
  claim_C8 zeroRNG [] 2

/-- Claim C9: for a cache of M cards and a nonnegative index, `get_card`
fails with IndexError for every index ≥ M and returns the index-th cached
card for every index in [0, M); being a pure function it leaves the cache
untouched. -/
theorem claim_C9 (cache : List Card) (i : Int) (h0 : 0 ≤ i) :
    get_card cache i =
      if i < (cache.length : Int) then Except.ok (cache.getD i.toNat [])
      else Except.error PyErr.indexError := by
  simp only [get_card, pyListGet]
  by_cases hlt : i < (cache.length : Int)
  · rw [if_neg (by omega : ¬ (cache.length : Int) ≤ i), if_pos h0, if_pos hlt]
  · rw [if_pos (by omega : (cache.length : Int) ≤ i), if_neg hlt]

/-- Witness for C9 at index 0 of the one-card cache. -/
theorem claim_C9_witness :
    (0 : Int) ≤ 0 ∧
    get_card sampleCache 0 =
      (if (0 : Int) < (sampleCache.length : Int) then
        Except.ok (sampleCache.getD (0 : Int).toNat [])
      else Except.error PyErr.indexError) :=
  ⟨by decide, claim_C9 sampleCache 0 (by decide)⟩

/-- Claim C10: for a cache of M ≥ 1 cards, a negative index in [-M, -1] does
not raise: the guard only checks `index ≥ M`, so the index falls through to
Python list indexing, and `get_card (-1)` returns the last cached card. -/
theorem claim_C10 (cache : List Card) (i : Int)
    (h1 : -(cache.length : Int) ≤ i) (h2 : i < 0) :
    get_card cache i = Except.ok (cache.getD ((cache.length : Int) + i).toNat []) ∧
    get_card cache (-1) = Except.ok (cache.getD (cache.length - 1) []) := by
  have hlen : 1 ≤ cache.length := by omega
  constructor
  · simp only [get_card, pyListGet]
    rw [if_neg (by omega : ¬ (cache.length : Int) ≤ i),
      if_neg (by omega : ¬ (0 : Int) ≤ i),
      if_pos (by omega : (0 : Int) ≤ (cache.length : Int) + i)]
  · simp only [get_card, pyListGet]
    rw [if_neg (by omega : ¬ (cache.length : Int) ≤ -1),
      if_neg (by omega : ¬ (0 : Int) ≤ (-1 : Int)),
      if_pos (by omega : (0 : Int) ≤ (cache.length : Int) + (-1))]
    have ht : ((cache.length : Int) + (-1)).toNat = cache.length - 1 := by omega
    rw [ht]

/-- Witness for C10 at index -1 of the one-card cache. -/
theorem claim_C10_witness :
    -(sampleCache.length : Int) ≤ -1 ∧ (-1 : Int) < 0 ∧
    (get_card sampleCache (-1) =
        Except.ok (sampleCache.getD ((sampleCache.length : Int) + (-1)).toNat []) ∧
      get_card sampleCache (-1) =
        Except.ok (sampleCache.getD (sampleCache.length - 1) [])) :=
  ⟨by decide, by decide, claim_C10 sampleCache (-1) (by decide) (by decide)⟩
